import Mathlib

/-
Shallow embedding of src/meeting_summarizer.py.

The script converts one audio file into a Markdown summary:
transcription (chunked when the file is over the Whisper size limit),
glossary loading, prompt building, summarization and a timestamped
Markdown output file.  External collaborators (the pydub decoder, the
OpenAI transcription and chat services, the filesystem and the wall
clock) are modelled as explicit inputs; every call the script makes to
them is recorded in an event trace, so that the claims about call
counts, call order and output files become statements about that trace.

Machine integers do not occur: Python ints are unbounded, so Nat is the
faithful model.  Python string helpers used by the script (str.strip,
str.startswith, file line iteration, os.path.basename, os.path.splitext)
are re-implemented below as executable functions on character lists.
-/

deriving instance DecidableEq for Except

/-! ## Python string helpers -/

/-- Python str.strip with no arguments: remove leading and trailing
whitespace.  (Python also strips a few rarer Unicode whitespace
characters; every string handled by the script and by the claims only
involves spaces, tabs, carriage returns and newlines, which
Char.isWhitespace covers.) -/
def pyStrip (s : String) : String :=
  String.mk (((s.data.dropWhile Char.isWhitespace).reverse.dropWhile Char.isWhitespace).reverse)

/-- Does the first character list start with the second one? -/
def startsChars : List Char → List Char → Bool
  | _, [] => true
  | [], _ :: _ => false
  | c :: cs, p :: ps => c = p && startsChars cs ps

/-- Python str.startswith for a plain string argument. -/
def pyStartsWith (s pat : String) : Bool :=
  startsChars s.data pat.data

/-- Helper for fileLines: split after each newline, keeping the newline,
accumulating the current line in reverse. -/
def linesAux : List Char → List Char → List String
  | [], acc => if acc.isEmpty then [] else [String.mk acc.reverse]
  | c :: cs, acc =>
    if c = '\n' then String.mk ((c :: acc).reverse) :: linesAux cs []
    else linesAux cs (c :: acc)

/-- Python file iteration (for ln in f): the lines of the file content,
each line keeping its trailing newline; no empty final line. -/
def fileLines (s : String) : List String :=
  linesAux s.data []

/-- os.path.basename on a POSIX path: everything after the last slash. -/
def basename (p : String) : String :=
  String.mk ((p.data.reverse.takeWhile (fun c => c ≠ '/')).reverse)

/-- Index of the last occurrence of a character, if any. -/
def lastIdxOf (cs : List Char) (c : Char) : Option Nat :=
  ((cs.enum.filter (fun q => q.2 == c)).map (fun q => q.1)).getLast?

/-- os.path.splitext, following the CPython algorithm: split at the last
dot, unless that dot belongs to a run of leading dots of the basename. -/
def splitext (p : String) : String × String :=
  let cs := p.data
  match lastIdxOf cs '.' with
  | none => (p, "")
  | some d =>
    let fIdx := match lastIdxOf cs '/' with
      | none => 0
      | some i => i + 1
    if fIdx ≤ d ∧ ((cs.drop fIdx).take (d - fIdx)).any (fun ch => ch ≠ '.') then
      (String.mk (cs.take d), String.mk (cs.drop d))
    else (p, "")

/-- Left-pad the decimal representation of n with zeros to width w,
as the zero-padded strftime directives do. -/
def padZero (w n : Nat) : String :=
  let s := toString n
  String.mk (List.replicate (w - s.length) '0') ++ s

/-- Wall-clock time at the granularity the script uses. -/
structure Timestamp where
  year : Nat
  month : Nat
  day : Nat
  hour : Nat
  minute : Nat

/-- datetime.datetime.now().strftime of the pattern YYYYMMDD underscore HHMM
used for the output directory name (zero-padded fields). -/
def formatNow (t : Timestamp) : String :=
  padZero 4 t.year ++ padZero 2 t.month ++ padZero 2 t.day ++ "_" ++
    padZero 2 t.hour ++ padZero 2 t.minute

/-! ## Configuration constants (source lines 27 to 29) -/

/-- MAX_FILE_SIZE_MB = 25. -/
def MAX_FILE_SIZE_MB : Nat := 25

/-- The size threshold in bytes.  The source compares
size_mb = getsize(path) / (1024 * 1024) against MAX_FILE_SIZE_MB; the
division is exact binary scaling of an integer byte count, so the float
comparison size_mb <= 25 holds exactly when the byte count is at most
25 * 1024 * 1024. -/
def threshold_bytes : Nat := MAX_FILE_SIZE_MB * 1024 * 1024

/-- AUDIO_CHUNK_LENGTH_MS = 30 * 60 * 1000, thirty minutes per chunk. -/
def AUDIO_CHUNK_LENGTH_MS : Nat := 30 * 60 * 1000

/-- The literal separator joining per-chunk transcripts (source line 82). -/
def CHUNK_SEPARATOR : String := "\n\n--- (次のチャンク) ---\n\n"

/-! ## Glossary loading (load_special_terms, source lines 85 to 90) -/

/-- load_special_terms.  The glossary argument models the special terms
file: none when the file does not exist, otherwise its full text.
Mirrors the comprehension on line 90: keep a raw line when its strip is
nonempty and the raw line does not start with a hash; the kept value is
the stripped line. -/
def load_special_terms (glossary : Option String) : List String :=
  match glossary with
  | none => []
  | some content =>
    ((fileLines content).filter
        (fun ln => !(pyStrip ln == "") && !(pyStartsWith ln "#"))).map
      (fun ln => pyStrip ln)

/-- Modelled from the spec wording of the GlossaryLoader contract (one
pass: trim each line, drop the blank and the comment lines, keep the
rest in file order).  Used only to compare against load_special_terms. -/
def glossaryTermsSpec (glossary : Option String) : List String :=
  match glossary with
  | none => []
  | some content =>
    (fileLines content).filterMap (fun ln =>
      if pyStrip ln = "" then none
      else if pyStartsWith ln "#" then none
      else some (pyStrip ln))

/-! ## Prompt building (build_prompt, source lines 93 to 114) -/

/-- Core instruction of the meeting template. -/
def MEETING_CORE : String := "あなたは優秀な会議書記担当AIです。以下の会議の文字起こし内容を日本語で要約してください。\n会議の主な目的、議論された主要なポイント、参加者の発言の要点、決定事項、およびネクストアクション（担当者と期限が明確な場合はそれも含む）を、構造化された箇条書き（Markdown形式）で示してください。"

/-- System message of the meeting template. -/
def MEETING_SYS : String := "会議の要点を正確に抽出し、議事録として分かりやすくまとめてください。"

/-- Core instruction of the presentation template. -/
def PRESENTATION_CORE : String := "あなたは優秀なレポート作成AIです。以下の発表、講演、または講義の文字起こし内容を日本語で要約してください。\n発表の主要なテーマ、背景、提唱されている中心的なアイデアや議論、重要な論点や発見、そして結論や聴衆への主なメッセージを明確に箇条書き（Markdown形式）で示してください。"

/-- System message of the presentation template. -/
def PRESENTATION_SYS : String := "発表内容の核心を捉えた要約を作成してください。"

/-- Core instruction of the general template. -/
def GENERAL_CORE : String := "あなたは優秀な要約AIです。以下の文字起こし内容を日本語で簡潔に要約してください。\nテキスト全体の主要な情報を抽出し、最も重要なポイントやトピックを箇条書き（Markdown形式）で分かりやすく示してください。"

/-- System message of the general template. -/
def GENERAL_SYS : String := "与えられたテキストの内容を正確に把握し、簡潔な要約を作成してください。"

/-- The fixed glossary instruction line of build_prompt (line 111). -/
def GLOSSARY_HEADER : String := "以下の専門用語を適切に使用してください:"

/-- The types dictionary lookup types.get(prompt_type, types[general])
of build_prompt: an equality lookup over the three keys, defaulting to
the general pair. -/
def promptSpecs (prompt_type : String) : String × String :=
  if prompt_type = "meeting" then (MEETING_CORE, MEETING_SYS)
  else if prompt_type = "presentation" then (PRESENTATION_CORE, PRESENTATION_SYS)
  else if prompt_type = "general" then (GENERAL_CORE, GENERAL_SYS)
  else (GENERAL_CORE, GENERAL_SYS)

/-- build_prompt: returns the (prompt, system message) pair.  The term
section is empty for an empty term list, otherwise the fixed glossary
instruction line followed by one dash bullet per term joined by
newlines; the prompt embeds the transcript verbatim between the fixed
delimiter lines (source line 113). -/
def build_prompt (transcript : String) (terms : List String) (prompt_type : String) :
    String × String :=
  let core_sys := promptSpecs prompt_type
  let term_section :=
    if terms.isEmpty then ""
    else GLOSSARY_HEADER ++ "\n" ++ String.intercalate "\n" (terms.map (fun t => "- " ++ t))
  (core_sys.1 ++ "\n" ++ term_section ++ "\n文字起こし:\n---\n" ++ transcript ++
      "\n---\n要約 (Markdown):",
    core_sys.2)

/-! ## Chunking (transcribe_audio loop, source lines 73 to 82) -/

/-- Python range(0, stop, step) for a positive step: the multiples of
step below stop, in increasing order.  Its length is the ceiling of
stop / step. -/
def pyRange (stop step : Nat) : List Nat :=
  (List.range ((stop + step - 1) / step)).map (fun i => i * step)

/-- Number of chunks produced for a total duration of D milliseconds:
the ceiling of D / AUDIO_CHUNK_LENGTH_MS. -/
def numChunks (D : Nat) : Nat :=
  (D + AUDIO_CHUNK_LENGTH_MS - 1) / AUDIO_CHUNK_LENGTH_MS

/-- One chunk of the decoded audio.  The temporary export path
chunk_idx.ext lives in the scoped temporary directory and carries no
information beyond the index, so it is not modelled. -/
structure Chunk where
  index : Nat
  start_offset_ms : Nat
  end_offset_ms : Nat
  deriving DecidableEq, Repr

/-- The chunk list built by the loop
for idx, start in enumerate(range(0, len(audio), AUDIO_CHUNK_LENGTH_MS)).
The pydub slice audio[start : start + AUDIO_CHUNK_LENGTH_MS] covers
[start, min(start + AUDIO_CHUNK_LENGTH_MS, D)). -/
def chunks (D : Nat) : List Chunk :=
  (pyRange D AUDIO_CHUNK_LENGTH_MS).enum.map
    (fun p => ⟨p.1, p.2, min (p.2 + AUDIO_CHUNK_LENGTH_MS) D⟩)

/-! ## Transcription orchestration (transcribe_audio, source lines 49 to 82) -/

/-- The audio input as the script observes it: whether the path
resolves to a file (os.path.isfile), its byte size (os.path.getsize),
whether pydub can decode it, and the decoded total duration len(audio)
in milliseconds. -/
structure AudioFile where
  path : String
  isFile : Bool
  sizeBytes : Nat
  durationMs : Nat
  decodable : Bool

/-- Externally visible actions of one run, in program order.  A
transcribeCall records one Whisper request: none is the whole
unchunked file, some i is the chunk of index i. -/
inductive Event where
  | decode
  | exportChunk (idx : Nat)
  | transcribeCall (chunk : Option Nat)
  | summarizeCall
  | writeFile (path : String)
  deriving DecidableEq, Repr

/-- Fatal conditions: each one makes the script terminate (sys.exit or
an uncaught service exception). -/
inductive RunError where
  | fileNotFound
  | decodeError
  | serviceError
  deriving DecidableEq, Repr

/-- Outcome of transcribe_audio together with its event trace. -/
structure TAResult where
  result : Except RunError String
  events : List Event

/-- The chunk loop body (lines 76 to 81): export the chunk, transcribe
it, stop at the first failing call (the exception propagates), collect
the texts otherwise.  The svc argument is the Whisper service. -/
def transcribeChunksLoop (svc : Option Nat → Except Unit String) :
    List Chunk → Except RunError (List String) × List Event
  | [] => (Except.ok [], [])
  | c :: rest =>
    match svc (some c.index) with
    | Except.error _ =>
      (Except.error RunError.serviceError,
        [Event.exportChunk c.index, Event.transcribeCall (some c.index)])
    | Except.ok t =>
      let r := transcribeChunksLoop svc rest
      (r.1.map (fun ts => t :: ts),
        Event.exportChunk c.index :: Event.transcribeCall (some c.index) :: r.2)

/-- transcribe_audio: missing file exits first; a file at most
threshold_bytes gets a single whole-file call; otherwise the file is
decoded (failure exits) and the chunk loop runs, and the per-chunk
texts are joined with CHUNK_SEPARATOR. -/
def transcribe_audio (f : AudioFile) (svc : Option Nat → Except Unit String) : TAResult :=
  if f.isFile = false then
    { result := Except.error RunError.fileNotFound, events := [] }
  else if f.sizeBytes ≤ threshold_bytes then
    match svc none with
    | Except.ok t => { result := Except.ok t, events := [Event.transcribeCall none] }
    | Except.error _ =>
      { result := Except.error RunError.serviceError, events := [Event.transcribeCall none] }
  else if f.decodable = false then
    { result := Except.error RunError.decodeError, events := [Event.decode] }
  else
    let loop := transcribeChunksLoop svc (chunks f.durationMs)
    { result :=
        match loop.1 with
        | Except.ok ts => Except.ok (String.intercalate CHUNK_SEPARATOR ts)
        | Except.error e => Except.error e,
      events := Event.decode :: loop.2 }

/-- The transcription calls recorded in a trace, in trace order. -/
def transCalls (evs : List Event) : List (Option Nat) :=
  evs.filterMap (fun e =>
    match e with
    | Event.transcribeCall c => some c
    | _ => none)

/-- Does the trace contain a file write? -/
def hasWrite (evs : List Event) : Bool :=
  evs.any (fun e =>
    match e with
    | Event.writeFile _ => true
    | _ => false)

/-- Boolean success test for the pipeline outcome. -/
def isOkB : Except RunError Unit → Bool
  | Except.ok _ => true
  | Except.error _ => false

/-! ## Summarization and entry point (source lines 117 to 174) -/

/-- summarize_transcript: build the prompt, send it to the chat service
(modelled as a function from system message and prompt to a response),
strip the response; a service failure is fatal. -/
def summarize_transcript (svcS : String → String → Except Unit String)
    (transcript : String) (terms : List String) (prompt_type : String) :
    Except RunError String :=
  let ps := build_prompt transcript terms prompt_type
  match svcS ps.2 ps.1 with
  | Except.ok content => Except.ok (pyStrip content)
  | Except.error _ => Except.error RunError.serviceError

/-- The external world of one run: the audio file, the Whisper service,
the glossary file content (none when absent), the prompt type chosen on
the command line, the chat service, the wall clock, and the filesystem
contents before the run. -/
structure World where
  audio : AudioFile
  svcT : Option Nat → Except Unit String
  glossary : Option String
  promptType : String
  svcS : String → String → Except Unit String
  now : Timestamp
  fs : String → Option String

/-- Outcome of main: final result, full event trace, filesystem after
the run. -/
structure MainResult where
  result : Except RunError Unit
  events : List Event
  fs : String → Option String

/-- The Markdown output path of a run: the timestamped directory, a
slash, the audio basename without its extension, and the md suffix
(source lines 164 to 170; os.path.join with a relative second argument
reduces to a single slash here since the directory name never ends in a
slash and the file name never starts with one). -/
def mdPathOf (w : World) : String :=
  formatNow w.now ++ "/" ++ (splitext (basename w.audio.path)).1 ++ ".md"

/-- mainRun models main (source lines 138 to 174): transcribe, load the glossary,
summarize, then create the timestamped directory and write the Markdown
file whose content is the heading line, a blank line and the summary.
Any earlier fatal condition ends the run with the filesystem untouched.
The write uses mode w, hence overwrites an existing file at the same
path. -/
def mainRun (w : World) : MainResult :=
  match (transcribe_audio w.audio w.svcT).result with
  | Except.error e =>
    { result := Except.error e, events := (transcribe_audio w.audio w.svcT).events,
      fs := w.fs }
  | Except.ok transcript =>
    let terms := load_special_terms w.glossary
    match summarize_transcript w.svcS transcript terms w.promptType with
    | Except.error e =>
      { result := Except.error e,
        events := (transcribe_audio w.audio w.svcT).events ++ [Event.summarizeCall],
        fs := w.fs }
    | Except.ok summary =>
      let base := (splitext (basename w.audio.path)).1
      let md_path := formatNow w.now ++ "/" ++ base ++ ".md"
      { result := Except.ok (),
        events := (transcribe_audio w.audio w.svcT).events ++
          [Event.summarizeCall, Event.writeFile md_path],
        fs := fun p =>
          if p = md_path then some ("# 要約: " ++ base ++ "\n\n" ++ summary)
          else w.fs p }

/-! ## Concrete instances used to evaluate the model -/

/-- A 45 minute file one byte over the 25 MB threshold: two chunks. -/
def bigFile : AudioFile :=
  { path := "dir/big.mp3", isFile := true, sizeBytes := 26214401,
    durationMs := 2700000, decodable := true }

/-- A file of exactly 25 MB (the boundary: not chunked). -/
def smallFile : AudioFile :=
  { path := "a.mp3", isFile := true, sizeBytes := 26214400,
    durationMs := 1000, decodable := true }

/-- A Whisper service answering A for chunk 0 and B for chunk 1. -/
def svcAB : Option Nat → Except Unit String
  | some 0 => Except.ok "A"
  | some 1 => Except.ok "B"
  | _ => Except.error ()

/-- A Whisper service that always succeeds. -/
def svcHello : Option Nat → Except Unit String :=
  fun _ => Except.ok "hello"

/-- A run in which every external call succeeds. -/
def wOk : World :=
  { audio := { path := "dir/rec.mp3", isFile := true, sizeBytes := 1000,
               durationMs := 5000, decodable := true },
    svcT := svcHello,
    glossary := some "term1\n",
    promptType := "general",
    svcS := fun _ _ => Except.ok " S ",
    now := ⟨2025, 1, 1, 12, 1⟩,
    fs := fun _ => none }

/-- A chunked run whose first transcription call fails. -/
def wFail : World :=
  { audio := bigFile,
    svcT := fun _ => Except.error (),
    glossary := none,
    promptType := "general",
    svcS := fun _ _ => Except.ok "unused",
    now := ⟨2025, 1, 1, 12, 1⟩,
    fs := fun _ => none }

/-- A run whose audio path does not resolve to a file. -/
def wMissing : World :=
  { audio := { path := "none.mp3", isFile := false, sizeBytes := 0,
               durationMs := 0, decodable := false },
    svcT := fun _ => Except.error (),
    glossary := none,
    promptType := "general",
    svcS := fun _ _ => Except.error (),
    now := ⟨2025, 1, 1, 12, 1⟩,
    fs := fun _ => none }

/-! ## Helper lemmas about the chunk list -/

theorem chunks_length (D : Nat) : (chunks D).length = numChunks D := by
  simp [chunks, pyRange, numChunks]

theorem chunks_getElem (D i : Nat) (h : i < (chunks D).length) :
    (chunks D).get ⟨i, h⟩ =
      ⟨i, i * AUDIO_CHUNK_LENGTH_MS, min (i * AUDIO_CHUNK_LENGTH_MS + AUDIO_CHUNK_LENGTH_MS) D⟩ := by
  simp [chunks, pyRange, List.getElem_map, List.getElem_enum, List.getElem_range]

theorem chunks_map_index (D : Nat) :
    (chunks D).map (fun c => c.index) = List.range (numChunks D) := by
  have h1 : (chunks D).map (fun c => c.index) =
      ((pyRange D AUDIO_CHUNK_LENGTH_MS).enum).map Prod.fst := by
    simp only [chunks, List.map_map]
    rfl
  rw [h1, List.enum_map_fst]
  simp [pyRange, numChunks]

/-! ## Helper lemmas about the chunk transcription loop -/

theorem transCalls_cons_export (i : Nat) (evs : List Event) :
    transCalls (Event.exportChunk i :: evs) = transCalls evs := rfl

theorem transCalls_cons_call (c : Option Nat) (evs : List Event) :
    transCalls (Event.transcribeCall c :: evs) = c :: transCalls evs := rfl

theorem loop_cons_error (svc : Option Nat → Except Unit String) (c : Chunk)
    (rest : List Chunk) (u : Unit) (hc : svc (some c.index) = Except.error u) :
    transcribeChunksLoop svc (c :: rest) =
      (Except.error RunError.serviceError,
        [Event.exportChunk c.index, Event.transcribeCall (some c.index)]) := by
  simp [transcribeChunksLoop, hc]

theorem loop_cons_ok (svc : Option Nat → Except Unit String) (c : Chunk)
    (rest : List Chunk) (t : String) (hc : svc (some c.index) = Except.ok t) :
    transcribeChunksLoop svc (c :: rest) =
      ((transcribeChunksLoop svc rest).1.map (fun ts => t :: ts),
        Event.exportChunk c.index :: Event.transcribeCall (some c.index) ::
          (transcribeChunksLoop svc rest).2) := by
  simp [transcribeChunksLoop, hc]

theorem loop_ok (svc : Option Nat → Except Unit String) (g : Nat → String) :
    ∀ l : List Chunk,
      (∀ c ∈ l, svc (some c.index) = Except.ok (g c.index)) →
      (transcribeChunksLoop svc l).1 = Except.ok (l.map (fun c => g c.index)) ∧
      transCalls (transcribeChunksLoop svc l).2 = l.map (fun c => some c.index) := by
  intro l
  induction l with
  | nil => intro _; exact ⟨rfl, rfl⟩
  | cons c rest ih =>
    intro hall
    have hc : svc (some c.index) = Except.ok (g c.index) := hall c (by simp)
    obtain ⟨ih1, ih2⟩ := ih (fun d hd => hall d (by simp [hd]))
    rw [loop_cons_ok svc c rest (g c.index) hc]
    constructor
    · simp [ih1, Except.map]
    · simp only [transCalls_cons_export, transCalls_cons_call, ih2, List.map_cons]

theorem loop_cases (svc : Option Nat → Except Unit String) (l : List Chunk) :
    ((∀ c ∈ l, ∃ t, svc (some c.index) = Except.ok t) ∧
        transCalls (transcribeChunksLoop svc l).2 = l.map (fun c => some c.index)) ∨
    (∃ pre c post, l = pre ++ c :: post ∧
        (∀ d ∈ pre, ∃ t, svc (some d.index) = Except.ok t) ∧
        svc (some c.index) = Except.error () ∧
        transCalls (transcribeChunksLoop svc l).2 =
          pre.map (fun c0 => some c0.index) ++ [some c.index]) := by
  induction l with
  | nil => exact Or.inl ⟨by simp, rfl⟩
  | cons c rest ih =>
    cases hc : svc (some c.index) with
    | error u =>
      refine Or.inr ⟨[], c, rest, by simp, by simp, ?_, ?_⟩
      · cases u; exact hc
      · rw [loop_cons_error svc c rest u hc]
        rfl
    | ok t =>
      rcases ih with ⟨hall, hcalls⟩ | ⟨pre, d, post, hsplit, hpre, hdf, hcalls⟩
      · refine Or.inl ⟨?_, ?_⟩
        · intro e he
          rcases List.mem_cons.mp he with rfl | he2
          · exact ⟨t, hc⟩
          · exact hall e he2
        · rw [loop_cons_ok svc c rest t hc]
          simp only [transCalls_cons_export, transCalls_cons_call, hcalls, List.map_cons]
      · refine Or.inr ⟨c :: pre, d, post, by simp [hsplit], ?_, hdf, ?_⟩
        · intro e he
          rcases List.mem_cons.mp he with rfl | he2
          · exact ⟨t, hc⟩
          · exact hpre e he2
        · rw [loop_cons_ok svc c rest t hc]
          simp only [transCalls_cons_export, transCalls_cons_call, hcalls, List.map_cons,
            List.cons_append]

theorem loop_calls_range (svc : Option Nat → Except Unit String) (D : Nat) :
    ∃ m, m ≤ numChunks D ∧
      transCalls (transcribeChunksLoop svc (chunks D)).2 = (List.range m).map some ∧
      (∀ i, i + 1 < m → ∃ t, svc (some i) = Except.ok t) := by
  rcases loop_cases svc (chunks D) with ⟨hall, hcalls⟩ | ⟨pre, c, post, hsplit, hpre, hcf, hcalls⟩
  · refine ⟨numChunks D, le_refl _, ?_, ?_⟩
    · rw [hcalls]
      have h2 : (chunks D).map (fun c => some c.index) =
          ((chunks D).map (fun c => c.index)).map some := by
        rw [List.map_map]
        rfl
      rw [h2, chunks_map_index]
    · intro i hi
      have h3 : i ∈ List.range (numChunks D) := List.mem_range.mpr (by omega)
      rw [← chunks_map_index] at h3
      rcases List.mem_map.mp h3 with ⟨d, hd, hdi⟩
      rcases hall d hd with ⟨t, ht⟩
      exact ⟨t, by rw [← hdi]; exact ht⟩
  · have hmap : pre.map (fun c => c.index) ++ c.index :: post.map (fun c => c.index) =
        List.range (numChunks D) := by
      have h0 := chunks_map_index D
      rw [hsplit] at h0
      simpa using h0
    have hlen : pre.length + 1 + post.length = numChunks D := by
      have h4 := congrArg List.length hmap
      simp at h4
      omega
    have hk0 : pre.length < numChunks D := by omega
    have hpremap : pre.map (fun c => c.index) = List.range pre.length := by
      have h1 : (pre.map (fun c => c.index) ++ c.index :: post.map (fun c => c.index)).take
          pre.length = pre.map (fun c => c.index) := by
        simp
      rw [hmap] at h1
      rw [← h1, List.take_range, Nat.min_eq_left (le_of_lt hk0)]
    have hcidx : c.index = pre.length := by
      have h6 := congrArg (fun l => l[pre.length]?) hmap
      simp only at h6
      rw [List.getElem?_append_right (by simp)] at h6
      simp at h6
      rw [List.getElem?_range hk0] at h6
      exact Option.some_injective _ h6
    refine ⟨pre.length + 1, by omega, ?_, ?_⟩
    · rw [hcalls, hcidx]
      have h7 : pre.map (fun c0 => some c0.index) =
          (pre.map (fun c0 => c0.index)).map some := by
        rw [List.map_map]
        rfl
      rw [h7, hpremap, List.range_succ, List.map_append]
      rfl
    · intro i hi
      have h8 : i ∈ List.range pre.length := List.mem_range.mpr (by omega)
      rw [← hpremap] at h8
      rcases List.mem_map.mp h8 with ⟨d, hd, hdi⟩
      rcases hpre d hd with ⟨t, ht⟩
      exact ⟨t, by rw [← hdi]; exact ht⟩

theorem bool_true_of_not_false {b : Bool} (h : ¬ b = false) : b = true := by
  cases b
  · exact absurd rfl h
  · rfl

theorem transcribe_audio_missing (f : AudioFile) (svc : Option Nat → Except Unit String)
    (h : f.isFile = false) :
    transcribe_audio f svc =
      { result := Except.error RunError.fileNotFound, events := [] } := by
  simp [transcribe_audio, h]

theorem transcribe_audio_small_events (f : AudioFile) (svc : Option Nat → Except Unit String)
    (h1 : f.isFile = true) (h2 : f.sizeBytes ≤ threshold_bytes) :
    (transcribe_audio f svc).events = [Event.transcribeCall none] := by
  simp only [transcribe_audio, h1, h2, if_true, if_pos]
  cases h : svc none <;> simp

theorem transcribe_audio_small_ok (f : AudioFile) (svc : Option Nat → Except Unit String)
    (t : String) (h1 : f.isFile = true) (h2 : f.sizeBytes ≤ threshold_bytes)
    (h3 : svc none = Except.ok t) :
    (transcribe_audio f svc).result = Except.ok t := by
  simp only [transcribe_audio, h1, h2, if_true, if_pos]
  simp [h3]

theorem transcribe_audio_nodecode (f : AudioFile) (svc : Option Nat → Except Unit String)
    (h1 : f.isFile = true) (h2 : threshold_bytes < f.sizeBytes) (h3 : f.decodable = false) :
    transcribe_audio f svc =
      { result := Except.error RunError.decodeError, events := [Event.decode] } := by
  simp [transcribe_audio, h1, Nat.not_le.mpr h2, h3]

theorem transcribe_audio_chunked_events (f : AudioFile) (svc : Option Nat → Except Unit String)
    (h1 : f.isFile = true) (h2 : threshold_bytes < f.sizeBytes) (h3 : f.decodable = true) :
    (transcribe_audio f svc).events =
      Event.decode :: (transcribeChunksLoop svc (chunks f.durationMs)).2 := by
  simp [transcribe_audio, h1, Nat.not_le.mpr h2, h3]

theorem transcribe_audio_chunked_result (f : AudioFile) (svc : Option Nat → Except Unit String)
    (ts : List String) (h1 : f.isFile = true) (h2 : threshold_bytes < f.sizeBytes)
    (h3 : f.decodable = true)
    (h4 : (transcribeChunksLoop svc (chunks f.durationMs)).1 = Except.ok ts) :
    (transcribe_audio f svc).result = Except.ok (String.intercalate CHUNK_SEPARATOR ts) := by
  simp [transcribe_audio, h1, Nat.not_le.mpr h2, h3, h4]

theorem loop_events_mem (svc : Option Nat → Except Unit String) :
    ∀ l : List Chunk, ∀ e ∈ (transcribeChunksLoop svc l).2,
      (∃ i, e = Event.exportChunk i) ∨ (∃ i, e = Event.transcribeCall (some i)) := by
  intro l
  induction l with
  | nil => intro e he; simp [transcribeChunksLoop] at he
  | cons c rest ih =>
    intro e he
    cases hc : svc (some c.index) with
    | error u =>
      rw [loop_cons_error svc c rest u hc] at he
      simp at he
      rcases he with rfl | rfl
      · exact Or.inl ⟨c.index, rfl⟩
      · exact Or.inr ⟨c.index, rfl⟩
    | ok t =>
      rw [loop_cons_ok svc c rest t hc] at he
      rcases List.mem_cons.mp he with rfl | he2
      · exact Or.inl ⟨c.index, rfl⟩
      · rcases List.mem_cons.mp he2 with rfl | he3
        · exact Or.inr ⟨c.index, rfl⟩
        · exact ih e he3

theorem hasWrite_loop (svc : Option Nat → Except Unit String) (l : List Chunk) :
    hasWrite (transcribeChunksLoop svc l).2 = false := by
  rw [hasWrite, List.any_eq_false]
  intro e he
  rcases loop_events_mem svc l e he with ⟨i, rfl⟩ | ⟨i, rfl⟩ <;> simp

theorem hasWrite_ta (f : AudioFile) (svc : Option Nat → Except Unit String) :
    hasWrite (transcribe_audio f svc).events = false := by
  by_cases hf : f.isFile = false
  · rw [transcribe_audio_missing f svc hf]
    rfl
  · have hf2 : f.isFile = true := bool_true_of_not_false hf
    by_cases hs : f.sizeBytes ≤ threshold_bytes
    · rw [transcribe_audio_small_events f svc hf2 hs]
      rfl
    · have hs2 : threshold_bytes < f.sizeBytes := Nat.not_le.mp hs
      by_cases hd : f.decodable = false
      · rw [transcribe_audio_nodecode f svc hf2 hs2 hd]
        rfl
      · have hd2 : f.decodable = true := bool_true_of_not_false hd
        rw [transcribe_audio_chunked_events f svc hf2 hs2 hd2]
        have h0 := hasWrite_loop svc (chunks f.durationMs)
        rw [hasWrite, List.any_eq_false] at h0 ⊢
        intro e he
        rcases List.mem_cons.mp he with rfl | he2
        · simp
        · exact h0 e he2

theorem no_summarize_ta (f : AudioFile) (svc : Option Nat → Except Unit String) :
    Event.summarizeCall ∉ (transcribe_audio f svc).events := by
  intro hmem
  by_cases hf : f.isFile = false
  · rw [transcribe_audio_missing f svc hf] at hmem
    simp at hmem
  · have hf2 : f.isFile = true := bool_true_of_not_false hf
    by_cases hs : f.sizeBytes ≤ threshold_bytes
    · rw [transcribe_audio_small_events f svc hf2 hs] at hmem
      simp at hmem
    · have hs2 : threshold_bytes < f.sizeBytes := Nat.not_le.mp hs
      by_cases hd : f.decodable = false
      · rw [transcribe_audio_nodecode f svc hf2 hs2 hd] at hmem
        simp at hmem
      · have hd2 : f.decodable = true := bool_true_of_not_false hd
        rw [transcribe_audio_chunked_events f svc hf2 hs2 hd2] at hmem
        rcases List.mem_cons.mp hmem with h | h
        · exact absurd h (by simp)
        · rcases loop_events_mem svc (chunks f.durationMs) _ h with ⟨i, hi⟩ | ⟨i, hi⟩ <;>
            simp at hi

theorem mainRun_of_ta_error (w : World) (e : RunError)
    (h : (transcribe_audio w.audio w.svcT).result = Except.error e) :
    mainRun w =
      { result := Except.error e, events := (transcribe_audio w.audio w.svcT).events,
        fs := w.fs } := by
  simp [mainRun, h]

theorem mainRun_of_sum_error (w : World) (tr : String) (e : RunError)
    (h : (transcribe_audio w.audio w.svcT).result = Except.ok tr)
    (h2 : summarize_transcript w.svcS tr (load_special_terms w.glossary) w.promptType =
      Except.error e) :
    mainRun w =
      { result := Except.error e,
        events := (transcribe_audio w.audio w.svcT).events ++ [Event.summarizeCall],
        fs := w.fs } := by
  simp [mainRun, h, h2]

theorem mainRun_of_ok (w : World) (tr sm : String)
    (h : (transcribe_audio w.audio w.svcT).result = Except.ok tr)
    (h2 : summarize_transcript w.svcS tr (load_special_terms w.glossary) w.promptType =
      Except.ok sm) :
    mainRun w =
      { result := Except.ok (),
        events := (transcribe_audio w.audio w.svcT).events ++
          [Event.summarizeCall, Event.writeFile (mdPathOf w)],
        fs := fun p =>
          if p = mdPathOf w
          then some ("# 要約: " ++ (splitext (basename w.audio.path)).1 ++ "\n\n" ++ sm)
          else w.fs p } := by
  simp [mainRun, h, h2, mdPathOf]

theorem str_append_empty (s : String) : s ++ "" = s := by
  cases s with
  | mk l => exact congrArg String.mk (List.append_nil l)

/-- C5: load_special_terms returns the empty list when the glossary file
does not exist; otherwise each line is stripped, blank lines and lines
starting with a hash are dropped, and the remaining lines become terms
in file order with duplicates preserved (the one-pass spec reading is
glossaryTermsSpec); on the file "# comment\n\nfoo\nbar\n" the result is
exactly ["foo", "bar"]. -/
theorem c5_glossary_loader :
    load_special_terms none = [] ∧
    (∀ g : Option String, load_special_terms g = glossaryTermsSpec g) ∧
    load_special_terms (some "# comment\n\nfoo\nbar\n") = ["foo", "bar"] ∧
    load_special_terms (some "dup\n\ndup\n") = ["dup", "dup"] := by
  refine ⟨rfl, ?_, by decide, by decide⟩
  intro g
  cases g with
  | none => rfl
  | some content =>
    simp only [load_special_terms, glossaryTermsSpec]
    induction fileLines content with
    | nil => rfl
    | cons ln rest ih =>
      by_cases h1 : pyStrip ln = ""
      · simp [List.filter_cons, List.filterMap_cons, h1, ih]
      · by_cases h2 : pyStartsWith ln "#" = true
        · simp [List.filter_cons, List.filterMap_cons, h1, h2, ih]
        · simp [List.filter_cons, List.filterMap_cons, h1, h2, ih]

/-- C10: the comment filter of load_special_terms tests the raw,
untrimmed line, so a line of leading whitespace followed by a hash is
not dropped: it is returned, stripped, as a glossary term. -/
theorem c10_indented_comment_kept :
    ∀ (content ln : String),
      ln ∈ fileLines content →
      pyStartsWith ln "#" = false →
      pyStartsWith (pyStrip ln) "#" = true →
      pyStrip ln ∈ load_special_terms (some content) := by
  intro content ln hmem hraw hstrip
  have hne : ¬ (pyStrip ln == "") = true := by
    intro he
    have he2 : pyStrip ln = "" := by simpa using he
    rw [he2] at hstrip
    exact absurd hstrip (by decide)
  refine List.mem_map.mpr ⟨ln, List.mem_filter.mpr ⟨hmem, ?_⟩, rfl⟩
  simp [hraw]
  simpa using hne

/-- Witness for c10: the line of two spaces, a hash and the word note
is kept as the stripped term. -/
theorem c10_indented_comment_kept_witness :
    ("# note" : String) ∈ load_special_terms (some "  # note\n") :=
  c10_indented_comment_kept "  # note\n" "  # note\n" (by decide) (by decide) (by decide)

/-- C6: build_prompt with a prompt type outside the three known keys
returns exactly the pair returned for the general type; the fallback is
the dictionary default, not an error. -/
theorem c6_unknown_prompt_type :
    ∀ (transcript : String) (terms : List String) (pt : String),
      pt ≠ "meeting" → pt ≠ "presentation" → pt ≠ "general" →
      build_prompt transcript terms pt = build_prompt transcript terms "general" := by
  intro transcript terms pt h1 h2 h3
  have h4 : promptSpecs pt = (GENERAL_CORE, GENERAL_SYS) := by
    unfold promptSpecs
    rw [if_neg h1, if_neg h2, if_neg h3]
  have h5 : promptSpecs "general" = (GENERAL_CORE, GENERAL_SYS) := by decide
  simp [build_prompt, h4, h5]

/-- Witness for c6 at the unknown value unknown_value. -/
theorem c6_unknown_prompt_type_witness :
    build_prompt "T" ["x"] "unknown_value" = build_prompt "T" ["x"] "general" :=
  c6_unknown_prompt_type "T" ["x"] "unknown_value" (by decide) (by decide) (by decide)

/-- C7: with an empty glossary list the prompt has no glossary section
at all (the section slot between the core instruction and the
transcript delimiter is the empty string); with a nonempty list the
prompt carries the fixed glossary instruction line followed by exactly
one dash bullet per term in list order, and in both cases the
transcript sits verbatim between the fixed delimiter lines. -/
theorem c7_glossary_section :
    ∀ (transcript prompt_type : String) (terms : List String),
      (build_prompt transcript [] prompt_type).1 =
        (promptSpecs prompt_type).1 ++ "\n" ++ "\n文字起こし:\n---\n" ++ transcript ++
          "\n---\n要約 (Markdown):" ∧
      (terms ≠ [] →
        (build_prompt transcript terms prompt_type).1 =
          (promptSpecs prompt_type).1 ++ "\n" ++
            (GLOSSARY_HEADER ++ "\n" ++
              String.intercalate "\n" (terms.map (fun t => "- " ++ t))) ++
            "\n文字起こし:\n---\n" ++ transcript ++ "\n---\n要約 (Markdown):") := by
  intro transcript prompt_type terms
  constructor
  · show (promptSpecs prompt_type).1 ++ "\n" ++ "" ++ "\n文字起こし:\n---\n" ++ transcript ++
        "\n---\n要約 (Markdown):" =
      (promptSpecs prompt_type).1 ++ "\n" ++ "\n文字起こし:\n---\n" ++ transcript ++
        "\n---\n要約 (Markdown):"
    rw [str_append_empty]
  · intro hne
    cases terms with
    | nil => exact absurd rfl hne
    | cons a as => rfl

/-- Witness for c7 with a nonempty term list. -/
theorem c7_glossary_section_witness :
    (build_prompt "T" ["a"] "general").1 =
      (promptSpecs "general").1 ++ "\n" ++
        (GLOSSARY_HEADER ++ "\n" ++
          String.intercalate "\n" ((["a"] : List String).map (fun t => "- " ++ t))) ++
        "\n文字起こし:\n---\n" ++ "T" ++ "\n---\n要約 (Markdown):" :=
  (c7_glossary_section "T" "general" ["a"]).2 (by decide)

/-- C8: when the audio path does not resolve to an existing file the
run terminates with the file-not-found error and an empty event trace:
no decode, no chunk export, no transcription call, no summarization
call and no file write happened. -/
theorem c8_missing_file_fails_fast :
    ∀ w : World, w.audio.isFile = false →
      (mainRun w).result = Except.error RunError.fileNotFound ∧
      (mainRun w).events = [] := by
  intro w h
  have h1 := transcribe_audio_missing w.audio w.svcT h
  have h2 : (transcribe_audio w.audio w.svcT).result = Except.error RunError.fileNotFound := by
    rw [h1]
  rw [mainRun_of_ta_error w RunError.fileNotFound h2]
  exact ⟨rfl, by rw [h1]⟩

/-- Witness for c8 on a concrete world with a missing file. -/
theorem c8_missing_file_fails_fast_witness :
    (mainRun wMissing).result = Except.error RunError.fileNotFound ∧
    (mainRun wMissing).events = [] :=
  c8_missing_file_fails_fast wMissing rfl

/-- C2: a file whose size is at most the 25 MB threshold gets exactly
one transcription call on the whole file (the single transcribeCall
none event) and nothing else: no decode, no chunk export; and dually a
chunk export or a decode can occur only when the size strictly exceeds
the threshold. -/
theorem c2_small_file_single_call :
    ∀ (f : AudioFile) (svc : Option Nat → Except Unit String),
      (f.isFile = true → f.sizeBytes ≤ threshold_bytes →
        (transcribe_audio f svc).events = [Event.transcribeCall none]) ∧
      (∀ i, Event.exportChunk i ∈ (transcribe_audio f svc).events →
        threshold_bytes < f.sizeBytes) ∧
      (Event.decode ∈ (transcribe_audio f svc).events → threshold_bytes < f.sizeBytes) := by
  intro f svc
  refine ⟨fun h1 h2 => transcribe_audio_small_events f svc h1 h2, ?_, ?_⟩
  · intro i hmem
    by_cases hf : f.isFile = false
    · rw [transcribe_audio_missing f svc hf] at hmem
      simp at hmem
    · have hf2 := bool_true_of_not_false hf
      by_cases hs : f.sizeBytes ≤ threshold_bytes
      · rw [transcribe_audio_small_events f svc hf2 hs] at hmem
        simp at hmem
      · exact Nat.not_le.mp hs
  · intro hmem
    by_cases hf : f.isFile = false
    · rw [transcribe_audio_missing f svc hf] at hmem
      simp at hmem
    · have hf2 := bool_true_of_not_false hf
      by_cases hs : f.sizeBytes ≤ threshold_bytes
      · rw [transcribe_audio_small_events f svc hf2 hs] at hmem
        simp at hmem
      · exact Nat.not_le.mp hs

/-- Witness for c2: the boundary file of exactly 25 MB gets the single
whole-file call, and on the over-threshold file a chunk export forces
the size bound. -/
theorem c2_small_file_single_call_witness :
    (transcribe_audio smallFile svcHello).events = [Event.transcribeCall none] ∧
    threshold_bytes < bigFile.sizeBytes :=
  ⟨(c2_small_file_single_call smallFile svcHello).1 rfl (by decide),
    (c2_small_file_single_call bigFile svcAB).2.1 0 (by decide)⟩

/-- C1: for an AudioSource over the size threshold with decoded total
duration D milliseconds, D positive, the chunking loop of
transcribe_audio (the list chunks D it iterates) has exactly the
ceiling of D / AUDIO_CHUNK_LENGTH_MS entries; entry i carries the
0-based sequential index i and covers
[i * AUDIO_CHUNK_LENGTH_MS, min((i+1) * AUDIO_CHUNK_LENGTH_MS, D)): the
first chunk starts at 0, consecutive chunks meet with no gap and no
overlap, the last chunk ends at D, and every chunk is nonempty and at
most AUDIO_CHUNK_LENGTH_MS (30 minutes) long. -/
theorem c1_chunk_partition (f : AudioFile)
    (hsize : threshold_bytes < f.sizeBytes) (hD : 0 < f.durationMs) :
    (chunks f.durationMs).length =
      (f.durationMs + AUDIO_CHUNK_LENGTH_MS - 1) / AUDIO_CHUNK_LENGTH_MS ∧
    (∀ i (h : i < (chunks f.durationMs).length),
      (chunks f.durationMs).get ⟨i, h⟩ =
        ⟨i, i * AUDIO_CHUNK_LENGTH_MS,
          min (i * AUDIO_CHUNK_LENGTH_MS + AUDIO_CHUNK_LENGTH_MS) f.durationMs⟩) ∧
    (∀ h : 0 < (chunks f.durationMs).length,
      ((chunks f.durationMs).get ⟨0, h⟩).start_offset_ms = 0) ∧
    (∀ i (h : i < (chunks f.durationMs).length) (h2 : i + 1 < (chunks f.durationMs).length),
      ((chunks f.durationMs).get ⟨i, h⟩).end_offset_ms =
        ((chunks f.durationMs).get ⟨i + 1, h2⟩).start_offset_ms) ∧
    (∀ h : (chunks f.durationMs).length - 1 < (chunks f.durationMs).length,
      ((chunks f.durationMs).get
          ⟨(chunks f.durationMs).length - 1, h⟩).end_offset_ms = f.durationMs) ∧
    (∀ i (h : i < (chunks f.durationMs).length),
      ((chunks f.durationMs).get ⟨i, h⟩).start_offset_ms <
        ((chunks f.durationMs).get ⟨i, h⟩).end_offset_ms ∧
      ((chunks f.durationMs).get ⟨i, h⟩).end_offset_ms -
        ((chunks f.durationMs).get ⟨i, h⟩).start_offset_ms ≤ AUDIO_CHUNK_LENGTH_MS) := by
  have hK : AUDIO_CHUNK_LENGTH_MS = 1800000 := rfl
  have hlen : (chunks f.durationMs).length =
      (f.durationMs + AUDIO_CHUNK_LENGTH_MS - 1) / AUDIO_CHUNK_LENGTH_MS := by
    rw [chunks_length]
    rfl
  refine ⟨hlen, fun i h => chunks_getElem f.durationMs i h, ?_, ?_, ?_, ?_⟩
  · intro h
    rw [chunks_getElem]
    simp
  · intro i h h2
    rw [chunks_getElem, chunks_getElem]
    show min (i * AUDIO_CHUNK_LENGTH_MS + AUDIO_CHUNK_LENGTH_MS) f.durationMs =
      (i + 1) * AUDIO_CHUNK_LENGTH_MS
    rw [hlen, hK] at h2
    rw [hK]
    omega
  · intro h
    rw [chunks_getElem]
    show min (((chunks f.durationMs).length - 1) * AUDIO_CHUNK_LENGTH_MS +
        AUDIO_CHUNK_LENGTH_MS) f.durationMs = f.durationMs
    rw [hlen, hK] at h ⊢
    omega
  · intro i h
    rw [chunks_getElem]
    show i * AUDIO_CHUNK_LENGTH_MS <
        min (i * AUDIO_CHUNK_LENGTH_MS + AUDIO_CHUNK_LENGTH_MS) f.durationMs ∧
      min (i * AUDIO_CHUNK_LENGTH_MS + AUDIO_CHUNK_LENGTH_MS) f.durationMs -
        i * AUDIO_CHUNK_LENGTH_MS ≤ AUDIO_CHUNK_LENGTH_MS
    rw [hlen, hK] at h
    rw [hK]
    omega

/-- Witness for c1 on the concrete two-chunk 45 minute file. -/
theorem c1_chunk_partition_witness :
    (chunks bigFile.durationMs).length =
      (bigFile.durationMs + AUDIO_CHUNK_LENGTH_MS - 1) / AUDIO_CHUNK_LENGTH_MS :=
  (c1_chunk_partition bigFile (by decide) (by decide)).1

theorem transCalls_cons_decode (evs : List Event) :
    transCalls (Event.decode :: evs) = transCalls evs := rfl

/-- C3 counterexample: the per-chunk transcripts are joined with the
literal Japanese separator of source line 82, not with the ASCII text
given in the claim; on the concrete two-chunk file whose chunks
transcribe to A and B, the result differs from the claimed join. -/
theorem c3_separator_counterexample :
    (transcribe_audio bigFile svcAB).result =
      Except.ok "A\n\n--- (次のチャンク) ---\n\nB" ∧
    (transcribe_audio bigFile svcAB).result ≠
      Except.ok "A\n\n--- (next chunk) ---\n\nB" := by
  constructor
  · decide
  · decide

/-- C3 (amended: the separator literal is the Japanese
CHUNK_SEPARATOR, of which the claimed ASCII text is a translation): in
a chunked run the recorded transcription calls are, in trace order,
exactly the chunk indices 0, 1, ..., m-1 for some m at most the chunk
count (the model is sequential, so trace order is call order and call
k+1 happens only after call k returned); when every per-chunk call
succeeds, all chunks are called once in index order and the returned
transcript is the per-chunk texts joined in index order with
CHUNK_SEPARATOR; a non-chunked file returns the single whole-file
response verbatim, one segment with no separator added. -/
theorem c3_ordered_calls_and_join :
    ∀ (f : AudioFile) (svc : Option Nat → Except Unit String),
      (f.isFile = true → threshold_bytes < f.sizeBytes → f.decodable = true →
        ∃ m, m ≤ numChunks f.durationMs ∧
          transCalls (transcribe_audio f svc).events = (List.range m).map some) ∧
      (∀ g : Nat → String,
        f.isFile = true → threshold_bytes < f.sizeBytes → f.decodable = true →
        (∀ i, i < numChunks f.durationMs → svc (some i) = Except.ok (g i)) →
        (transcribe_audio f svc).result =
          Except.ok (String.intercalate CHUNK_SEPARATOR
            ((List.range (numChunks f.durationMs)).map g)) ∧
        transCalls (transcribe_audio f svc).events =
          (List.range (numChunks f.durationMs)).map some) ∧
      (∀ t : String, f.isFile = true → f.sizeBytes ≤ threshold_bytes →
        svc none = Except.ok t →
        (transcribe_audio f svc).result = Except.ok t ∧
        transCalls (transcribe_audio f svc).events = [none]) := by
  intro f svc
  refine ⟨?_, ?_, ?_⟩
  · intro h1 h2 h3
    rcases loop_calls_range svc f.durationMs with ⟨m, hm, hcalls, _⟩
    refine ⟨m, hm, ?_⟩
    rw [transcribe_audio_chunked_events f svc h1 h2 h3, transCalls_cons_decode, hcalls]
  · intro g h1 h2 h3 hall
    have hmem : ∀ c ∈ chunks f.durationMs, svc (some c.index) = Except.ok (g c.index) := by
      intro c hc
      have hidx : c.index ∈ (chunks f.durationMs).map (fun c => c.index) :=
        List.mem_map.mpr ⟨c, hc, rfl⟩
      rw [chunks_map_index] at hidx
      exact hall c.index (List.mem_range.mp hidx)
    obtain ⟨hres, hcalls⟩ := loop_ok svc g (chunks f.durationMs) hmem
    constructor
    · rw [transcribe_audio_chunked_result f svc _ h1 h2 h3 hres]
      have hmap : (chunks f.durationMs).map (fun c => g c.index) =
          (List.range (numChunks f.durationMs)).map g := by
        have h4 : (chunks f.durationMs).map (fun c => g c.index) =
            ((chunks f.durationMs).map (fun c => c.index)).map g := by
          rw [List.map_map]
          rfl
        rw [h4, chunks_map_index]
      rw [hmap]
    · rw [transcribe_audio_chunked_events f svc h1 h2 h3, transCalls_cons_decode, hcalls]
      have h4 : (chunks f.durationMs).map (fun c => some c.index) =
          ((chunks f.durationMs).map (fun c => c.index)).map some := by
        rw [List.map_map]
        rfl
      rw [h4, chunks_map_index]
  · intro t h1 h2 h3
    refine ⟨transcribe_audio_small_ok f svc t h1 h2 h3, ?_⟩
    rw [transcribe_audio_small_events f svc h1 h2]
    rfl

/-- Witness for c3: on the concrete two-chunk run with all calls
succeeding, the calls are chunk 0 then chunk 1 and the transcript is
the joined pair; on the boundary-size file the single whole-file call
returns its response verbatim. -/
theorem c3_ordered_calls_and_join_witness :
    ((transcribe_audio bigFile svcAB).result =
        Except.ok (String.intercalate CHUNK_SEPARATOR
          ((List.range (numChunks bigFile.durationMs)).map
            (fun i => if i = 0 then "A" else "B"))) ∧
      transCalls (transcribe_audio bigFile svcAB).events =
        (List.range (numChunks bigFile.durationMs)).map some) ∧
    ((transcribe_audio smallFile svcHello).result = Except.ok "hello" ∧
      transCalls (transcribe_audio smallFile svcHello).events = [none]) :=
  ⟨(c3_ordered_calls_and_join bigFile svcAB).2.1 (fun i => if i = 0 then "A" else "B")
      rfl (by decide) rfl (by decide),
    (c3_ordered_calls_and_join smallFile svcHello).2.2 "hello" rfl (by decide) rfl⟩

theorem transCalls_append (a b : List Event) :
    transCalls (a ++ b) = transCalls a ++ transCalls b :=
  List.filterMap_append a b _

theorem mem_transCalls_of_mem {c : Option Nat} {evs : List Event}
    (h : Event.transcribeCall c ∈ evs) : c ∈ transCalls evs :=
  List.mem_filterMap.mpr ⟨Event.transcribeCall c, h, rfl⟩

theorem ta_call_mem_chunked {f : AudioFile} {svc : Option Nat → Except Unit String} {j : Nat}
    (h1 : f.isFile = true) (h2 : threshold_bytes < f.sizeBytes) (h3 : f.decodable = true)
    (hmem : Event.transcribeCall (some j) ∈ (transcribe_audio f svc).events) :
    some j ∈ transCalls (transcribeChunksLoop svc (chunks f.durationMs)).2 := by
  rw [transcribe_audio_chunked_events f svc h1 h2 h3] at hmem
  rcases List.mem_cons.mp hmem with h | h
  · exact absurd h (by simp)
  · exact mem_transCalls_of_mem h

/-- C4: failures abort the run with nothing written.  In every world:
a run that does not end in success writes no file; after a failing
transcription call on chunk k no later chunk is ever dispatched (the
exception aborts the loop, no retry, no salvage of a partial
transcript); no transcription call is ever repeated (the call list has
no duplicates); a file write implies the whole pipeline succeeded; and
the summarization call is dispatched only once the full transcription
succeeded. -/
theorem c4_failure_aborts :
    ∀ w : World,
      (isOkB (mainRun w).result = false → hasWrite (mainRun w).events = false) ∧
      (∀ k, w.svcT (some k) = Except.error () → ∀ j, k < j →
        Event.transcribeCall (some j) ∉ (mainRun w).events) ∧
      (transCalls (mainRun w).events).Nodup ∧
      (hasWrite (mainRun w).events = true → isOkB (mainRun w).result = true) ∧
      (Event.summarizeCall ∈ (mainRun w).events →
        ∃ t, (transcribe_audio w.audio w.svcT).result = Except.ok t) := by
  intro w
  have hta_mem : ∀ e, e ∈ (mainRun w).events → e ∈ (transcribe_audio w.audio w.svcT).events ∨
      e = Event.summarizeCall ∨ ∃ p, e = Event.writeFile p := by
    intro e he
    cases hta : (transcribe_audio w.audio w.svcT).result with
    | error er =>
      rw [mainRun_of_ta_error w er hta] at he
      exact Or.inl he
    | ok tr =>
      cases hsm : summarize_transcript w.svcS tr (load_special_terms w.glossary)
          w.promptType with
      | error er =>
        rw [mainRun_of_sum_error w tr er hta hsm] at he
        rcases List.mem_append.mp he with h | h
        · exact Or.inl h
        · simp at h
          exact Or.inr (Or.inl h)
      | ok sm =>
        rw [mainRun_of_ok w tr sm hta hsm] at he
        rcases List.mem_append.mp he with h | h
        · exact Or.inl h
        · simp at h
          rcases h with h | h
          · exact Or.inr (Or.inl h)
          · exact Or.inr (Or.inr ⟨mdPathOf w, h⟩)
  refine ⟨?_, ?_, ?_, ?_, ?_⟩
  · intro hfail
    cases hta : (transcribe_audio w.audio w.svcT).result with
    | error er =>
      rw [mainRun_of_ta_error w er hta]
      exact hasWrite_ta w.audio w.svcT
    | ok tr =>
      cases hsm : summarize_transcript w.svcS tr (load_special_terms w.glossary)
          w.promptType with
      | error er =>
        rw [mainRun_of_sum_error w tr er hta hsm]
        show hasWrite ((transcribe_audio w.audio w.svcT).events ++ [Event.summarizeCall]) = false
        rw [hasWrite, List.any_append]
        have h5 := hasWrite_ta w.audio w.svcT
        rw [hasWrite] at h5
        rw [h5]
        rfl
      | ok sm =>
        rw [mainRun_of_ok w tr sm hta hsm] at hfail
        simp [isOkB] at hfail
  · intro k hk j hkj hmem
    rcases hta_mem _ hmem with h | h | ⟨p, h⟩
    · by_cases hf : w.audio.isFile = false
      · rw [transcribe_audio_missing _ _ hf] at h
        simp at h
      · have hf2 := bool_true_of_not_false hf
        by_cases hs : w.audio.sizeBytes ≤ threshold_bytes
        · rw [transcribe_audio_small_events _ _ hf2 hs] at h
          simp at h
        · have hs2 := Nat.not_le.mp hs
          by_cases hd : w.audio.decodable = false
          · rw [transcribe_audio_nodecode _ _ hf2 hs2 hd] at h
            simp at h
          · have hd2 := bool_true_of_not_false hd
            have hcall := ta_call_mem_chunked hf2 hs2 hd2 h
            rcases loop_calls_range w.svcT w.audio.durationMs with ⟨m, _, hcalls, hsucc⟩
            rw [hcalls] at hcall
            simp only [List.mem_map] at hcall
            rcases hcall with ⟨x, hx, hxe⟩
            have hxj : x = j := by
              injection hxe
            rw [hxj] at hx
            have hjm := List.mem_range.mp hx
            have hk1 : k + 1 < m := by omega
            rcases hsucc k hk1 with ⟨t, ht⟩
            rw [hk] at ht
            exact absurd ht (by simp)
    · exact absurd h (by simp)
    · exact absurd h (by simp)
  · have htc : transCalls (mainRun w).events =
        transCalls (transcribe_audio w.audio w.svcT).events := by
      cases hta : (transcribe_audio w.audio w.svcT).result with
      | error er => rw [mainRun_of_ta_error w er hta]
      | ok tr =>
        cases hsm : summarize_transcript w.svcS tr (load_special_terms w.glossary)
            w.promptType with
        | error er =>
          rw [mainRun_of_sum_error w tr er hta hsm]
          show transCalls ((transcribe_audio w.audio w.svcT).events ++
            [Event.summarizeCall]) = _
          rw [transCalls_append]
          simp [transCalls]
        | ok sm =>
          rw [mainRun_of_ok w tr sm hta hsm]
          show transCalls ((transcribe_audio w.audio w.svcT).events ++
            [Event.summarizeCall, Event.writeFile (mdPathOf w)]) = _
          rw [transCalls_append]
          simp [transCalls]
    rw [htc]
    by_cases hf : w.audio.isFile = false
    · rw [transcribe_audio_missing _ _ hf]
      simp [transCalls]
    · have hf2 := bool_true_of_not_false hf
      by_cases hs : w.audio.sizeBytes ≤ threshold_bytes
      · rw [transcribe_audio_small_events _ _ hf2 hs]
        simp [transCalls]
      · have hs2 := Nat.not_le.mp hs
        by_cases hd : w.audio.decodable = false
        · rw [transcribe_audio_nodecode _ _ hf2 hs2 hd]
          simp [transCalls]
        · have hd2 := bool_true_of_not_false hd
          rw [transcribe_audio_chunked_events _ _ hf2 hs2 hd2, transCalls_cons_decode]
          rcases loop_calls_range w.svcT w.audio.durationMs with ⟨m, _, hcalls, _⟩
          rw [hcalls]
          exact List.Nodup.map (Option.some_injective Nat) (List.nodup_range m)
  · intro hw
    cases hta : (transcribe_audio w.audio w.svcT).result with
    | error er =>
      rw [mainRun_of_ta_error w er hta] at hw
      have h5 := hasWrite_ta w.audio w.svcT
      rw [h5] at hw
      exact absurd hw (by decide)
    | ok tr =>
      cases hsm : summarize_transcript w.svcS tr (load_special_terms w.glossary)
          w.promptType with
      | error er =>
        rw [mainRun_of_sum_error w tr er hta hsm] at hw
        rw [show hasWrite ((transcribe_audio w.audio w.svcT).events ++
            [Event.summarizeCall]) =
          (hasWrite (transcribe_audio w.audio w.svcT).events || hasWrite [Event.summarizeCall])
          from List.any_append] at hw
        rw [hasWrite_ta w.audio w.svcT] at hw
        exact absurd hw (by decide)
      | ok sm =>
        rw [mainRun_of_ok w tr sm hta hsm]
        rfl
  · intro hmem
    cases hta : (transcribe_audio w.audio w.svcT).result with
    | error er =>
      rw [mainRun_of_ta_error w er hta] at hmem
      exact absurd hmem (no_summarize_ta w.audio w.svcT)
    | ok tr => exact ⟨tr, rfl⟩

/-- Witness for c4: on the run whose first chunk call fails nothing is
written, chunk 1 is never dispatched, and each call happened at most
once; on the fully successful run the file write implies success. -/
theorem c4_failure_aborts_witness :
    hasWrite (mainRun wFail).events = false ∧
    (mainRun wFail).events.count (Event.transcribeCall (some 1)) = 0 ∧
    (transCalls (mainRun wFail).events).Nodup ∧
    isOkB (mainRun wOk).result = true :=
  ⟨(c4_failure_aborts wFail).1 (by decide),
    List.count_eq_zero.mpr ((c4_failure_aborts wFail).2.1 0 rfl 1 (by decide)),
    (c4_failure_aborts wFail).2.2.1,
    (c4_failure_aborts wOk).2.2.2.1 (by decide)⟩

/-- C9: on a successful run the written file sits at the path made of
the wall-clock directory name (strftime YYYYMMDD underscore HHMM at
minute granularity), a slash, and the audio basename without extension
followed by the md suffix; its content is exactly the level-1 heading
followed by a blank line and the summary, the summary being the chat
response stripped of leading and trailing whitespace.  The statement
holds for every prior filesystem state, so a pre-existing file at the
same path is overwritten. -/
theorem c9_output_artifact :
    ∀ (w : World) (tr resp : String),
      (transcribe_audio w.audio w.svcT).result = Except.ok tr →
      w.svcS (build_prompt tr (load_special_terms w.glossary) w.promptType).2
          (build_prompt tr (load_special_terms w.glossary) w.promptType).1 =
        Except.ok resp →
      (mainRun w).result = Except.ok () ∧
      (mainRun w).fs (mdPathOf w) =
        some ("# 要約: " ++ (splitext (basename w.audio.path)).1 ++ "\n\n" ++
          pyStrip resp) := by
  intro w tr resp hta hsvc
  have hsm : summarize_transcript w.svcS tr (load_special_terms w.glossary) w.promptType =
      Except.ok (pyStrip resp) := by
    simp [summarize_transcript, hsvc]
  rw [mainRun_of_ok w tr (pyStrip resp) hta hsm]
  exact ⟨rfl, by simp⟩

/-- Witness for c9 on the concrete successful run: the timestamped
path and the exact file content. -/
theorem c9_output_artifact_witness :
    (mainRun wOk).result = Except.ok () ∧
    (mainRun wOk).fs (mdPathOf wOk) =
      some ("# 要約: " ++ (splitext (basename wOk.audio.path)).1 ++ "\n\n" ++
        pyStrip " S ") :=
  c9_output_artifact wOk "hello" " S " (by decide) rfl
